import Mathlib

/- Verification development for the map-segmentation-gendata repository.

The repository holds two Rust binaries:
  src/src/main.rs                  - tile raster cache and polygon rasterizer
  src/stitch_pictures/src/main.rs  - concurrent mosaic stitcher

The definitions below are shallow embeddings of those two source files.
External crates (the latitude half of the slippy_map_tiles math, imageproc
polygon filling, geo geodesic areas, reqwest fetching plus image decoding)
are modeled as parameters bundled in the Externals structure; everything
written in the repository itself is translated directly.  The f64
arithmetic of the source is modeled over the rationals. -/

namespace MapGen

/-- An RGB pixel value. -/
abbrev Rgb := ℕ × ℕ × ℕ

/-- A raster image: dimensions plus a pixel function (image::RgbImage). -/
structure Image where
  width : ℕ
  height : ℕ
  pix : ℕ → ℕ → Rgb

/-- A blank image of the given size: ImageBuffer::new fills with zeroes. -/
def Image.blank (w h : ℕ) : Image := ⟨w, h, fun _ _ => (0, 0, 0)⟩

/-- image::imageops::overlay of img onto target at offset (ox, oy): pixels
under the footprint of img are replaced by the pixels of img (both images
are plain RGB, so overlay is a copy). -/
def Image.overlay (target img : Image) (ox oy : ℕ) : Image :=
  ⟨target.width, target.height, fun x y =>
    if ox ≤ x ∧ x < ox + img.width ∧ oy ≤ y ∧ y < oy + img.height then
      img.pix (x - ox) (y - oy)
    else target.pix x y⟩

/-- slippy_map_tiles::Tile, the (zoom, x, y) tile address. -/
structure Tile where
  zoom : ℕ
  x : ℕ
  y : ℕ
deriving DecidableEq

/-- Tile::new checks the address against the 2 ^ zoom bound and yields
none (an unwrap panic at the call sites) outside it. -/
def Tile.new (zoom x y : ℕ) : Option Tile :=
  if x < 2 ^ zoom ∧ y < 2 ^ zoom then some ⟨zoom, x, y⟩ else none

/-- The ZOOM constant (both binaries): the zoom where 1px = 1m. -/
def ZOOM : ℕ := 17

namespace GenData

/-- GeoCoordinate from src/src/main.rs (f64 degrees, modeled as ℚ). -/
structure GeoCoordinate where
  longitude : ℚ
  latitude : ℚ
deriving DecidableEq

/-- translate from src/src/main.rs lines 85-96: map value linearly from
the span [left_min, left_max] onto [right_min, right_max]. -/
def translate (value left_min left_max right_min right_max : ℚ) : ℚ :=
  let left_span := left_max - left_min
  let right_span := right_max - right_min
  let value_scaled := (value - left_min) / left_span
  right_min + value_scaled * right_span

/-- Truncation toward zero: the Rust f64-to-i32 cast applied to the
output of translate (saturation at the i32 bounds is not modeled; all
inputs of interest stay far inside the range). -/
def ratTrunc (q : ℚ) : ℤ := Int.tdiv q.num (q.den : ℤ)

/-- COLOR_INDEX from src/src/main.rs line 131: three RGB entries. -/
def COLOR_INDEX : List Rgb := [(0, 0, 0), (255, 0, 0), (0, 255, 0)]

/-- BuildingColor from src/src/main.rs lines 133-139. -/
inductive BuildingColor where
  | Nothing
  | BuildingBelowAreaThreshold
  | Normal
  | BuildingHasExcludedTags
deriving DecidableEq

/-- The numeric discriminant of a BuildingColor (the Rust as-usize cast
used to index COLOR_INDEX). -/
def BuildingColor.toIdx : BuildingColor → ℕ
  | .Nothing => 0
  | .BuildingBelowAreaThreshold => 1
  | .Normal => 2
  | .BuildingHasExcludedTags => 3

/-- slippy_map_tiles::BBox built as BBox::new(top, left, bottom, right),
in degrees. -/
structure BBox where
  top : ℚ
  left : ℚ
  bottom : ℚ
  right : ℚ

/-- BBox::overlaps_bbox of the slippy_map_tiles crate: the standard
axis-aligned interval intersection test on both axes. -/
def overlapsBBox (a b : BBox) : Bool :=
  decide (a.left ≤ b.right ∧ b.left ≤ a.right ∧ a.bottom ≤ b.top ∧ b.bottom ≤ a.top)

/-- The hardcoded area-of-interest box of prepare_tile (lines 160-162):
BBox::new(55.93 + buf, 37.3 - buf, 55.56 - buf, 37.9 + buf), buf = 0.5. -/
def interestBBox : BBox :=
  ⟨55.93 + 0.5, 37.3 - 0.5, 55.56 - 0.5, 37.9 + 0.5⟩

/-- Western edge longitude of slippy tile column x at ZOOM: the exact
rational half of the slippy-map tile math (the crate computes it in
f32). -/
def lonLeft (x : ℕ) : ℚ := (x : ℚ) / 2 ^ ZOOM * 360 - 180

/-- Eastern edge longitude of slippy tile column x at ZOOM. -/
def lonRight (x : ℕ) : ℚ := lonLeft (x + 1)

/-- Slippy tile column of a longitude at ZOOM: the exact rational half of
lat_lon_to_tile.  The latitude-to-row half needs mercator trigonometry
and lives behind Externals. -/
def lonToX (lon : ℚ) : ℕ := (((lon + 180) / 360 * 2 ^ ZOOM).floor).toNat

/-- The external-crate capabilities used by src/src/main.rs, abstracted:
the mercator latitude math of slippy_map_tiles (latToY is the row half of
lat_lon_to_tile, yToLatTop and yToLatBottom are tile.top() and
tile.bottom()), imageproc::drawing::draw_polygon_mut, the geodesic signed
area of the geo crate, and the success path of the reqwest fetch plus
image decode of one tile. -/
structure Externals where
  latToY : ℚ → ℕ
  yToLatTop : ℕ → ℚ
  yToLatBottom : ℕ → ℚ
  drawPoly : Image → List (ℤ × ℤ) → Rgb → Image
  geodesicArea : List GeoCoordinate → ℚ
  fetchDecode : Tile → Image

/-- The geographic extent of a tile: tile.bbox() of the slippy crate. -/
def tileBBoxOf (ext : Externals) (t : Tile) : BBox :=
  ⟨ext.yToLatTop t.y, lonLeft t.x, ext.yToLatBottom t.y, lonRight t.x⟩

/-- lat_lon_to_tile at ZOOM, as (x, y). -/
def latLonToTile (ext : Externals) (lat lon : ℚ) : ℕ × ℕ :=
  (lonToX lon, ext.latToY lat)

/-- The failure modes of the cache operations: bail is the anyhow error
raised inside prepare_tile, panic stands for a Rust panic (a failed
unwrap, a failed assert, or an out-of-bounds index). -/
inductive RunError where
  | bail
  | panic
deriving DecidableEq

/-- True exactly on the error constructor of a cache-operation result. -/
def isErr : Except RunError Unit → Bool
  | .error _ => true
  | .ok _ => false

/-- ImageCache from src/src/main.rs lines 141-147.  tiles is the key set
of the HashMap with unit values, outlines maps a tile to its outline
canvas, dirty is the flush set.  fetchCalls and drawCalls are
test-double counters (the fetch-call counter of the specification)
recording how often the network fetch and draw_polygon_mut run; no
modeled operation reads them. -/
structure ImageCache where
  tiles : List Tile
  outlines : List (Tile × Image)
  dirty : List Tile
  fetchCalls : ℕ
  drawCalls : ℕ

/-- prepare_tile from src/src/main.rs lines 150-214: bail when the tile
is both unknown and outside the area of interest; return at once when
base and outline are both present; assert the zoom; otherwise fetch,
decode, create the blank outline and register both canvases. -/
def prepare_tile (ext : Externals) (st : ImageCache) (tile : Tile) :
    Except RunError Unit × ImageCache :=
  if ¬ tile ∈ st.tiles ∧ overlapsBBox interestBBox (tileBBoxOf ext tile) = false then
    (.error .bail, st)
  else if tile ∈ st.tiles ∧ (st.outlines.lookup tile).isSome then
    (.ok (), st)
  else if tile.zoom ≠ ZOOM then
    (.error .panic, st)
  else
    let img := ext.fetchDecode tile
    (.ok (), { st with
      tiles := tile :: st.tiles
      outlines := (tile, Image.blank img.width img.height) :: st.outlines
      fetchCalls := st.fetchCalls + 1 })

/-- geo_to_screen_coordinate from src/src/main.rs lines 216-239: the
longitude gives the x pixel, the latitude gives the y pixel, and the
latitude span runs from the tile top down (+Y down). -/
def geo_to_screen_coordinate (ext : Externals) (tile : Tile)
    (screen_size : ℕ × ℕ) (coord : GeoCoordinate) : ℤ × ℤ :=
  (ratTrunc (translate coord.longitude (lonLeft tile.x) (lonRight tile.x)
      0 (screen_size.1 : ℚ)),
   ratTrunc (translate coord.latitude (ext.yToLatTop tile.y) (ext.yToLatBottom tile.y)
      0 (screen_size.2 : ℚ)))

/-- The closing-point loop of draw_polygon (src/src/main.rs lines
268-270): while the last projected point equals the first, pop the last;
calling last().unwrap() once the list is empty is a panic, returned as
none.  The definition carries fuel to stay structural; the fuel never
runs out when it starts above the list length, since every iteration
pops one element. -/
def trimAux : ℕ → List (ℤ × ℤ) → Option (List (ℤ × ℤ))
  | 0, _ => none
  | fuel + 1, l =>
    match l.getLast?, l.head? with
    | none, _ => none
    | some _, none => none
    | some lst, some fst =>
      if lst = fst then trimAux fuel l.dropLast else some l

/-- The closing-point removal of draw_polygon, with sufficient fuel. -/
def trimClosing (l : List (ℤ × ℤ)) : Option (List (ℤ × ℤ)) :=
  trimAux (l.length + 1) l

/-- The per-vertex tile addresses of a polygon (draw_polygon lines
248-255): lat_lon_to_tile for every vertex, then
Tile::new(ZOOM, ..).unwrap(); none is the unwrap panic on an
out-of-range address. -/
def tilesOfPoly (ext : Externals) : List GeoCoordinate → Option (List Tile)
  | [] => some []
  | v :: rest =>
    match Tile.new ZOOM (latLonToTile ext v.latitude v.longitude).1
        (latLonToTile ext v.latitude v.longitude).2, tilesOfPoly ext rest with
    | some t, some ts => some (t :: ts)
    | _, _ => none

/-- The per-tile loop body of draw_polygon (src/src/main.rs lines
257-276): insert into dirty, prepare the tile, fetch the outline canvas,
project every vertex, pop the closing points, index the color table and
draw.  An error from prepare_tile propagates through the question-mark
operator and stops the loop; the unwrap on the emptied projection list
and the out-of-bounds color index are panics. -/
def drawLoop (ext : Externals) (poly : List GeoCoordinate)
    (how : BuildingColor) : List Tile → ImageCache →
    Except RunError Unit × ImageCache
  | [], st => (.ok (), st)
  | t :: rest, st =>
    let st1 := { st with dirty := t :: st.dirty }
    match prepare_tile ext st1 t with
    | (.error e, st2) => (.error e, st2)
    | (.ok _, st2) =>
      match st2.outlines.lookup t with
      | none => (.error .panic, st2)
      | some img =>
        match trimClosing (poly.map (geo_to_screen_coordinate ext t (img.width, img.height))) with
        | none => (.error .panic, st2)
        | some kept =>
          match COLOR_INDEX.get? how.toIdx with
          | none => (.error .panic, st2)
          | some col =>
            drawLoop ext poly how rest
              { st2 with
                outlines := (t, ext.drawPoly img kept col) :: st2.outlines
                drawCalls := st2.drawCalls + 1 }

/-- draw_polygon from src/src/main.rs lines 241-279.  The HashSet of
touched tiles is modeled as dedup of the per-vertex tile list; the
HashSet iteration order is unspecified in the source, so one order is
fixed here. -/
def draw_polygon (ext : Externals) (st : ImageCache)
    (poly : List GeoCoordinate) (how : BuildingColor) :
    Except RunError Unit × ImageCache :=
  match tilesOfPoly ext poly with
  | none => (.error .panic, st)
  | some ts => drawLoop ext poly how ts.dedup st

/-- A node of the osmpbfreader crate: decimicro-degree coordinates. -/
structure Node where
  decimicro_lat : ℤ
  decimicro_lon : ℤ

/-- A way: its ordered node references. -/
structure Way where
  nodes : List ℤ

/-- fetch_outline_way from src/src/main.rs lines 342-377: ways with
fewer than three node references, or with an unresolved reference, are
skipped with Ok; otherwise the coordinates are assembled, the geodesic
area classified against 100 m² and the polygon drawn. -/
def fetch_outline_way (ext : Externals) (st : ImageCache) (way : Way)
    (nodes : List (ℤ × Node)) : Except RunError Unit × ImageCache :=
  if way.nodes.length < 3 then (.ok (), st)
  else
    let looked := way.nodes.map (fun v => nodes.lookup v)
    if ¬ looked.all Option.isSome then (.ok (), st)
    else
      let coords := looked.reduceOption.map (fun n =>
        GeoCoordinate.mk ((n.decimicro_lon : ℚ) / 10000000)
          ((n.decimicro_lat : ℚ) / 10000000))
      if |ext.geodesicArea coords| < 100 then
        draw_polygon ext st coords .BuildingBelowAreaThreshold
      else
        draw_polygon ext st coords .Normal

/-- The tile keys of the persisted-tile directory, already parsed from
the y-x filenames, turned into addresses through
Tile::new(ZOOM, x, y).unwrap() (load, lines 298-311). -/
def loadKeys : List (ℕ × ℕ) → Option (List Tile)
  | [] => some []
  | (y, x) :: rest =>
    match Tile.new ZOOM x y, loadKeys rest with
    | some t, some ts => some (t :: ts)
    | _, _ => none

/-- The outline entries of the persisted-outline directory: parsed keys
with their decoded canvases (load, lines 312-330). -/
def loadOutlines : List ((ℕ × ℕ) × Image) → Option (List (Tile × Image))
  | [] => some []
  | ((y, x), img) :: rest =>
    match Tile.new ZOOM x y, loadOutlines rest with
    | some t, some ts => some ((t, img) :: ts)
    | _, _ => none

/-- load from src/src/main.rs lines 294-339, over the already parsed
(y, x) keys of the two storage directories (the directory walk and the
filename split are io glue; every parsed key goes through
Tile::new(ZOOM, x, y).unwrap(), whose failure is the modeled panic). -/
def load (tileKeys : List (ℕ × ℕ)) (outlineKeys : List ((ℕ × ℕ) × Image)) :
    Except RunError ImageCache :=
  match loadKeys tileKeys, loadOutlines outlineKeys with
  | some ts, some os => .ok ⟨ts, os, [], 0, 0⟩
  | _, _ => .error .panic

/-- The invariant of claim C10: every tile address keyed anywhere in the
cache has zoom ZOOM. -/
def zoomInv (st : ImageCache) : Prop :=
  (∀ t ∈ st.tiles, t.zoom = ZOOM) ∧
  (∀ p ∈ st.outlines, p.1.zoom = ZOOM) ∧
  (∀ t ∈ st.dirty, t.zoom = ZOOM)

/-- A concrete instantiation of the external capabilities, used to run
the model on concrete inputs: every latitude falls in tile row 0, rows
span latitudes 56 down to 55, drawing returns the canvas unchanged,
areas are 0, fetches decode to a blank 256 by 256 image. -/
def ext0 : Externals where
  latToY _ := 0
  yToLatTop _ := 56
  yToLatBottom _ := 55
  drawPoly img _ _ := img
  geodesicArea _ := 0
  fetchDecode _ := Image.blank 256 256

/-- The tile of longitude 37 in row 0 (column lonToX 37 = 79007): inside
the area of interest under ext0's latitudes. -/
def tIn : Tile := ⟨17, 79007, 0⟩

/-- The tile of longitude -179 in row 0 (column lonToX (-179) = 364):
its longitude interval misses the area of interest whatever the
latitudes. -/
def tOut : Tile := ⟨17, 364, 0⟩

/-- A cache holding exactly tIn with a blank outline canvas. -/
def stIn : ImageCache := ⟨[tIn], [(tIn, Image.blank 256 256)], [], 0, 0⟩

/-- The empty cache. -/
def stEmpty : ImageCache := ⟨[], [], [], 0, 0⟩

/-- A two-vertex polygon touching tOut (rejected by the interest box)
first and tIn (cached) second. -/
def polySpan : List GeoCoordinate := [⟨-179, 55.5⟩, ⟨37, 55.5⟩]

/-- Two vertices inside tIn that project to different pixels. -/
def polyTwo : List GeoCoordinate := [⟨37, 55.5⟩, ⟨37, 55.49⟩]

/-- Three distinct vertices inside tIn that all project to the same
pixel of the 256 by 256 canvas. -/
def polyPoint : List GeoCoordinate := [⟨37, 55.5⟩, ⟨37, 55.4999⟩, ⟨37, 55.4998⟩]

/-- A closed three-reference way: it returns to its first node, so after
closing-point removal it has only two distinct vertices. -/
def wayClosed : Way := ⟨[1, 2, 1]⟩

/-- The coordinate list fetch_outline_way assembles for wayClosed. -/
def polyClosed : List GeoCoordinate := [⟨37, 55.5⟩, ⟨37, 55.49⟩, ⟨37, 55.5⟩]

/-- The two resolved nodes of wayClosed, both inside tIn, projecting to
different pixels. -/
def nodesClosed : List (ℤ × Node) :=
  [(1, ⟨555000000, 370000000⟩), (2, ⟨554900000, 370000000⟩)]

end GenData

namespace Stitch

/-- The on-disk state read and written by the stitcher binary: the
per-tile base and outline images it reads, and the stitched image pair
it writes keyed by the block anchor.  none also covers files that fail
to decode, which get_tile and get_outline (lines 10-22) fold into the
missing case through ok()?. -/
structure Disk where
  tiles : Tile → Option Image
  outlines : Tile → Option Image
  stitchedTiles : Tile → Option Image
  stitchedOutlines : Tile → Option Image

/-- The access-mode flags of std::fs::OpenOptions. -/
structure OpenOptions where
  rd : Bool
  wr : Bool

/-- OpenOptions::new leaves every access mode unset. -/
def OpenOptions.new : OpenOptions := ⟨false, false⟩

/-- OpenOptions::open against a path that may exist: opening with
neither read nor write access always fails with InvalidInput whatever
the file; with an access mode set it succeeds exactly on existing
files. -/
def OpenOptions.openFile (o : OpenOptions) (fileExists : Bool) : Except Unit Unit :=
  if o.rd = false ∧ o.wr = false then .error ()
  else if fileExists then .ok () else .error ()

/-- The pre-build existence test of build_tile_img (lines 25-30):
OpenOptions::new().open(stitched tile path).is_ok(). -/
def existsCheck (fileExists : Bool) : Bool :=
  match OpenOptions.new.openFile fileExists with
  | .ok _ => true
  | .error _ => false

/-- The 8 by 8 member offsets in the loop order of build_tile_img
(x outer, y inner). -/
def memberIdx : List (ℕ × ℕ) :=
  (List.range 8).flatMap fun x => (List.range 8).map fun y => (x, y)

/-- The member address Tile::new(ZOOM, tile.x + x, tile.y + y) (line
36).  For an anchor inside the zoom range with x and y multiples of 8,
x + 7 and y + 7 stay below 2 ^ 17, so the unwrap cannot fire and the
address is built directly. -/
def memTile (t : Tile) (xy : ℕ × ℕ) : Tile := ⟨t.zoom, t.x + xy.1, t.y + xy.2⟩

/-- The all-blue 256 by 256 sentinel tile built in the missing-outline
arm (lines 62-67). -/
def errorTile : Image := ⟨256, 256, fun _ _ => (0, 0, 255)⟩

/-- One member iteration of build_tile_img (lines 34-79): paste the
member's base image or abort the whole block when it is missing; paste
the member's outline image, or the blue sentinel when that is missing. -/
def stitchStep (disk : Disk) (t : Tile) (acc : Option (Image × Image))
    (xy : ℕ × ℕ) : Option (Image × Image) :=
  acc.bind fun pr =>
    match disk.tiles (memTile t xy) with
    | none => none
    | some img =>
      let base := pr.1.overlay img (img.width * xy.1) (img.height * xy.2)
      let outl :=
        match disk.outlines (memTile t xy) with
        | some oimg => pr.2.overlay oimg (oimg.width * xy.1) (oimg.height * xy.2)
        | none => pr.2.overlay errorTile (256 * xy.1) (256 * xy.2)
      some (base, outl)

/-- The full member loop of build_tile_img over the two blank
2048 by 2048 targets. -/
def stitchFold (disk : Disk) (t : Tile) : Option (Image × Image) :=
  memberIdx.foldl (stitchStep disk t)
    (some (Image.blank (256 * 8) (256 * 8), Image.blank (256 * 8) (256 * 8)))

/-- A write into one stitched namespace. -/
def diskWrite (f : Tile → Option Image) (k : Tile) (v : Image) :
    Tile → Option Image :=
  fun t => if t = k then some v else f t

/-- build_tile_img from src/stitch_pictures/src/main.rs lines 24-94. -/
def build_tile_img (disk : Disk) (tile : Tile) : Bool × Disk :=
  if existsCheck ((disk.stitchedTiles tile).isSome) then (true, disk)
  else
    match stitchFold disk tile with
    | none => (false, disk)
    | some pr =>
      (true, { disk with
        stitchedTiles := diskWrite disk.stitchedTiles tile pr.1
        stitchedOutlines := diskWrite disk.stitchedOutlines tile pr.2 })

/-- Progress of one rayon worker through its work-list item in the main
loop (lines 148-172): about to send Contains, about to call
build_tile_img, about to send the 64 Add requests, finished after
building, or finished without building (non-anchor item, or key already
touched). -/
inductive Phase where
  | toCheck
  | toBuild
  | toAdd
  | builtDone
  | skipDone
deriving DecidableEq

/-- One worker and its work-list item. -/
structure Worker where
  item : Tile
  phase : Phase
deriving DecidableEq

/-- The anchor test of the main loop (lines 150-155):
x % 8 == 0 and y % 8 == 0. -/
def anchorTile (t : Tile) : Prop := t.x % 8 = 0 ∧ t.y % 8 = 0

instance : DecidablePred anchorTile := fun t => by
  unfold anchorTile; infer_instance

/-- The 64 member keys a worker sends Add requests for after its build
(lines 163-170). -/
def blockMembers (t : Tile) : Finset Tile :=
  (Finset.range 8 ×ˢ Finset.range 8).image fun p => ⟨t.zoom, t.x + p.1, t.y + p.2⟩

/-- A global state of the stitcher run: the workers, the coordinator's
tiles_touched set, and the log of build_tile_img calls (each entry is
one set of block writes). -/
structure Config where
  workers : List Worker
  touched : Finset Tile
  builds : List Tile

/-- The interleaving semantics of the stitcher main loop.  The
coordinator thread (lines 136-144) serializes each Contains and each Add
request, one recv at a time, so each query and each insert is atomic on
its own; but nothing joins a worker's Contains to its later Adds: the
build_tile_img call sits between them, and the 64 Adds (collapsed into
one insert step here; buffering them in the channel would only delay the
insert further) happen only after it. -/
inductive Step : Config → Config → Prop
  | checkNonAnchor (pre post : List Worker) (t : Tile) (tch : Finset Tile)
      (bl : List Tile) (h : ¬ anchorTile t) :
      Step ⟨pre ++ ⟨t, .toCheck⟩ :: post, tch, bl⟩
        ⟨pre ++ ⟨t, .skipDone⟩ :: post, tch, bl⟩
  | checkPresent (pre post : List Worker) (t : Tile) (tch : Finset Tile)
      (bl : List Tile) (ha : anchorTile t) (h : t ∈ tch) :
      Step ⟨pre ++ ⟨t, .toCheck⟩ :: post, tch, bl⟩
        ⟨pre ++ ⟨t, .skipDone⟩ :: post, tch, bl⟩
  | checkAbsent (pre post : List Worker) (t : Tile) (tch : Finset Tile)
      (bl : List Tile) (ha : anchorTile t) (h : t ∉ tch) :
      Step ⟨pre ++ ⟨t, .toCheck⟩ :: post, tch, bl⟩
        ⟨pre ++ ⟨t, .toBuild⟩ :: post, tch, bl⟩
  | build (pre post : List Worker) (t : Tile) (tch : Finset Tile)
      (bl : List Tile) :
      Step ⟨pre ++ ⟨t, .toBuild⟩ :: post, tch, bl⟩
        ⟨pre ++ ⟨t, .toAdd⟩ :: post, tch, t :: bl⟩
  | add (pre post : List Worker) (t : Tile) (tch : Finset Tile)
      (bl : List Tile) :
      Step ⟨pre ++ ⟨t, .toAdd⟩ :: post, tch, bl⟩
        ⟨pre ++ ⟨t, .builtDone⟩ :: post, tch ∪ blockMembers t, bl⟩

/-- Reachability across interleavings of the stitcher main loop. -/
def Reach : Config → Config → Prop := Relation.ReflTransGen Step

/-- A worker that has called build_tile_img and not yet finished, or has
finished after building. -/
def postBuild (w : Worker) : Prop := w.phase = .toAdd ∨ w.phase = .builtDone

/-- The block anchor (0, 0) at ZOOM. -/
def anchor0 : Tile := ⟨17, 0, 0⟩

/-- Two workers holding the same anchor key, both about to query the
coordinator: the race of the specification's exactly-once test. -/
def raceInit : Config := ⟨[⟨anchor0, .toCheck⟩, ⟨anchor0, .toCheck⟩], ∅, []⟩

/-- The state after both workers observed the key absent and both called
build_tile_img. -/
def raceEnd : Config := ⟨[⟨anchor0, .toAdd⟩, ⟨anchor0, .toAdd⟩], ∅, [anchor0, anchor0]⟩

/-- A disk with every base tile present and every outline missing. -/
def diskNoOutlines : Disk :=
  ⟨fun _ => some (Image.blank 256 256), fun _ => none, fun _ => none, fun _ => none⟩

/-- A disk with every base tile missing and every outline present. -/
def diskNoBases : Disk :=
  ⟨fun _ => none, fun _ => some (Image.blank 256 256), fun _ => none, fun _ => none⟩

/-- A disk whose stitched base file for anchor0 already exists while the
member base tiles are missing. -/
def diskStitched : Disk :=
  ⟨fun _ => none, fun _ => some (Image.blank 256 256),
   fun _ => some (Image.blank 2048 2048), fun _ => none⟩

/-- The inductive invariant of the stitcher run, relative to the initial
work list: the items never change; non-anchor workers only idle or skip;
anchor workers never skip; every touched key was inserted by a finished
builder of its block; and the build log holds exactly one entry for the
item of each worker past its build call, and none for any other key. -/
def StInv (ws0 : List Worker) (c : Config) : Prop :=
  c.workers.map Worker.item = ws0.map Worker.item ∧
  (∀ w ∈ c.workers, ¬ anchorTile w.item → w.phase = .toCheck ∨ w.phase = .skipDone) ∧
  (∀ w ∈ c.workers, anchorTile w.item → w.phase ≠ .skipDone) ∧
  (∀ a ∈ c.touched, ∃ w ∈ c.workers, w.phase = .builtDone ∧ a ∈ blockMembers w.item) ∧
  (∀ k : Tile, (∃ w ∈ c.workers, w.item = k ∧ postBuild w) → c.builds.count k = 1) ∧
  (∀ k : Tile, (∀ w ∈ c.workers, w.item = k → ¬ postBuild w) → c.builds.count k = 0)

/-- Modelled from the spec: policy A, a missing member aborts the whole
block and nothing is persisted. -/
def UniformAbortPolicy : Prop :=
  ∀ disk t, (∃ xy ∈ memberIdx, disk.tiles (memTile t xy) = none ∨
      disk.outlines (memTile t xy) = none) →
    build_tile_img disk t = (false, disk)

/-- Modelled from the spec: policy B, a missing member is rendered as a
flat sentinel tile and the degraded block is still persisted. -/
def UniformSentinelPolicy : Prop :=
  ∀ disk t, (∃ xy ∈ memberIdx, disk.tiles (memTile t xy) = none ∨
      disk.outlines (memTile t xy) = none) →
    (build_tile_img disk t).1 = true

end Stitch

namespace Stitch

theorem existsCheck_false (b : Bool) : existsCheck b = false := rfl

theorem foldl_stitchStep_none (disk : Disk) (t : Tile) (l : List (ℕ × ℕ)) :
    l.foldl (stitchStep disk t) none = none := by
  induction l with
  | nil => rfl
  | cons xy rest ih =>
    rw [List.foldl_cons]
    have hstep : stitchStep disk t none xy = none := rfl
    rw [hstep, ih]

theorem foldl_stitchStep_eq_none_iff (disk : Disk) (t : Tile) :
    ∀ (l : List (ℕ × ℕ)) (acc : Image × Image),
      l.foldl (stitchStep disk t) (some acc) = none ↔
        ∃ xy ∈ l, disk.tiles (memTile t xy) = none := by
  intro l
  induction l with
  | nil => intro acc; simp
  | cons xy rest ih =>
    intro acc
    rw [List.foldl_cons]
    cases h : disk.tiles (memTile t xy) with
    | none =>
      have hstep : stitchStep disk t (some acc) xy = none := by
        simp [stitchStep, h]
      rw [hstep, foldl_stitchStep_none]
      simp only [List.mem_cons, true_iff]
      exact ⟨xy, Or.inl rfl, h⟩
    | some img =>
      have hstep : ∃ acc2, stitchStep disk t (some acc) xy = some acc2 := by
        simp [stitchStep, h]
      obtain ⟨acc2, hstep⟩ := hstep
      rw [hstep, ih acc2]
      simp only [List.mem_cons]
      constructor
      · rintro ⟨z, hz, hnone⟩
        exact ⟨z, Or.inr hz, hnone⟩
      · rintro ⟨z, hz | hz, hnone⟩
        · rw [hz] at hnone
          rw [h] at hnone
          cases hnone
        · exact ⟨z, hz, hnone⟩

/-- C2 (amended): build_tile_img applies a fixed policy per layer, not a
single uniform one.  Base layer, policy A: the block build fails exactly
when some member base tile is missing, and then nothing is persisted.
Outline layer, policy B: when every member base tile is present the
block is persisted even if outline members are missing (each such member
is drawn as the flat blue sentinel tile). -/
theorem build_tile_img_policy_per_layer (disk : Disk) (t : Tile) :
    ((build_tile_img disk t).1 = false ↔
      ∃ xy ∈ memberIdx, disk.tiles (memTile t xy) = none) ∧
    ((build_tile_img disk t).1 = false → build_tile_img disk t = (false, disk)) ∧
    ((∀ xy ∈ memberIdx, (disk.tiles (memTile t xy)).isSome) →
      (build_tile_img disk t).1 = true ∧
      ((build_tile_img disk t).2.stitchedTiles t).isSome ∧
      ((build_tile_img disk t).2.stitchedOutlines t).isSome) := by
  have hiff : stitchFold disk t = none ↔
      ∃ xy ∈ memberIdx, disk.tiles (memTile t xy) = none :=
    foldl_stitchStep_eq_none_iff disk t memberIdx _
  unfold build_tile_img
  rw [existsCheck_false]
  simp only [Bool.false_eq_true, if_false]
  cases hf : stitchFold disk t with
  | none =>
    refine ⟨⟨fun _ => hiff.mp hf, fun _ => rfl⟩, fun _ => rfl, fun hall => ?_⟩
    obtain ⟨xy, hxy, hnone⟩ := hiff.mp hf
    have := hall xy hxy
    rw [hnone] at this
    cases this
  | some pr =>
    refine ⟨⟨fun h => ?_, fun he => ?_⟩, fun h => ?_, fun _ => ?_⟩
    · cases h
    · exact absurd (hiff.mpr he) (by rw [hf]; intro h; cases h)
    · cases h
    · refine ⟨rfl, ?_, ?_⟩ <;> simp [diskWrite]

/-- C2 (witness): with every member base tile missing, build_tile_img
aborts the block. -/
theorem build_tile_img_policy_per_layer_witness :
    (build_tile_img diskNoBases anchor0).1 = false :=
  (build_tile_img_policy_per_layer diskNoBases anchor0).1.mpr
    ⟨(0, 0), by decide, rfl⟩

/-- C2 (counterexample): neither missing-member policy of the claim
describes build_tile_img uniformly.  With all bases present and all
outlines missing the block is still persisted (refuting policy A), and
the persisted outline layer carries the blue sentinel color at the
missing member's quadrant; with bases missing the block is aborted
(refuting policy B). -/
theorem build_tile_img_policy_not_uniform :
    ¬ (UniformAbortPolicy ∨ UniformSentinelPolicy) ∧
    ((build_tile_img diskNoOutlines anchor0).2.stitchedOutlines anchor0).map
      (fun im => im.pix 0 0) = some (0, 0, 255) := by
  constructor
  · rintro (hA | hB)
    · have h := hA diskNoOutlines anchor0 ⟨(0, 0), by decide, Or.inr rfl⟩
      have h1 : (build_tile_img diskNoOutlines anchor0).1 = true := rfl
      rw [h] at h1
      cases h1
    · have h := hB diskNoBases anchor0 ⟨(0, 0), by decide, Or.inl rfl⟩
      have h1 : (build_tile_img diskNoBases anchor0).1 = false := rfl
      rw [h1] at h
      cases h
  · rfl

theorem anchor_of_mem_block {a t : Tile} (ha : anchorTile a) (ht : anchorTile t)
    (h : a ∈ blockMembers t) : a = t := by
  unfold blockMembers at h
  rw [Finset.mem_image] at h
  obtain ⟨p, hp, he⟩ := h
  rw [Finset.mem_product, Finset.mem_range, Finset.mem_range] at hp
  obtain ⟨ht1, ht2⟩ := ht
  subst he
  simp only [anchorTile] at ha
  obtain ⟨ha1, ha2⟩ := ha
  have hx : p.1 = 0 := by omega
  have hy : p.2 = 0 := by omega
  cases t
  simp [hx, hy]

theorem item_ne_of_nodup {pre post : List Worker} {t : Tile} {ph : Phase}
    (h : ((pre ++ ⟨t, ph⟩ :: post).map Worker.item).Nodup) :
    ∀ w ∈ pre ++ post, w.item ≠ t := by
  rw [List.map_append, List.map_cons, List.nodup_middle, List.nodup_cons] at h
  intro w hw he
  apply h.1
  rw [← List.map_append]
  have hm := List.mem_map_of_mem Worker.item hw
  rw [he] at hm
  exact hm

theorem mem_update_cases {pre post : List Worker} {mid : Worker} {w : Worker}
    (h : w ∈ pre ++ mid :: post) : w = mid ∨ w ∈ pre ++ post := by
  rw [List.mem_append, List.mem_cons] at h
  rw [List.mem_append]
  tauto

theorem mem_of_mem_sides {pre post : List Worker} {mid : Worker} {w : Worker}
    (h : w ∈ pre ++ post) : w ∈ pre ++ mid :: post := by
  rw [List.mem_append] at h
  rw [List.mem_append, List.mem_cons]
  tauto

theorem mid_mem {pre post : List Worker} {mid : Worker} :
    mid ∈ pre ++ mid :: post := by
  rw [List.mem_append, List.mem_cons]
  tauto

/-- Preservation of the stitcher invariant by steps that only advance
the middle worker's phase, leaving the touched set and the build log
alone, where the old and new phases are both strictly before the build
call. -/
theorem inv_phase_update {ws0 : List Worker} {pre post : List Worker}
    {t : Tile} {ph ph' : Phase} {tch : Finset Tile} {bl : List Tile}
    (hinv : StInv ws0 ⟨pre ++ ⟨t, ph⟩ :: post, tch, bl⟩)
    (hb : ph ≠ .builtDone)
    (hpb : ¬ postBuild ⟨t, ph⟩) (hpb' : ¬ postBuild ⟨t, ph'⟩)
    (hna : ¬ anchorTile t → ph' = .toCheck ∨ ph' = .skipDone)
    (hsk : anchorTile t → ph' ≠ .skipDone) :
    StInv ws0 ⟨pre ++ ⟨t, ph'⟩ :: post, tch, bl⟩ := by
  obtain ⟨h1, h2, h3, h4, h5, h6⟩ := hinv
  refine ⟨?_, ?_, ?_, ?_, ?_, ?_⟩
  · rw [← h1]
    simp
  · intro w hw hna'
    rcases mem_update_cases hw with he | hw'
    · rw [he]
      exact hna (by rw [he] at hna'; exact hna')
    · exact h2 w (mem_of_mem_sides hw') hna'
  · intro w hw ha
    rcases mem_update_cases hw with he | hw'
    · rw [he]
      exact hsk (by rw [he] at ha; exact ha)
    · exact h3 w (mem_of_mem_sides hw') ha
  · intro a hmem
    obtain ⟨w, hw, hwph, hwbm⟩ := h4 a hmem
    rcases mem_update_cases hw with he | hw'
    · rw [he] at hwph
      exact absurd hwph hb
    · exact ⟨w, mem_of_mem_sides hw', hwph, hwbm⟩
  · intro k hk
    obtain ⟨w, hw, hwi, hwpb⟩ := hk
    apply h5 k
    rcases mem_update_cases hw with he | hw'
    · rw [he] at hwpb
      exact absurd hwpb hpb'
    · exact ⟨w, mem_of_mem_sides hw', hwi, hwpb⟩
  · intro k hk
    apply h6 k
    intro w hw hwi
    rcases mem_update_cases hw with he | hw'
    · rw [he]
      exact hpb
    · exact hk w (mem_of_mem_sides hw') hwi

theorem step_preserves_inv {ws0 : List Worker} {c c' : Config}
    (hnd : (ws0.map Worker.item).Nodup)
    (hinv : StInv ws0 c) (hs : Step c c') : StInv ws0 c' := by
  cases hs with
  | checkNonAnchor pre post t tch bl hna =>
    exact inv_phase_update hinv (by intro h; cases h)
      (by rintro (h | h) <;> cases h) (by rintro (h | h) <;> cases h)
      (fun _ => Or.inr rfl) (fun ha => absurd ha hna)
  | checkPresent pre post t tch bl ha hmem =>
    exfalso
    obtain ⟨h1, h2, h3, h4, h5, h6⟩ := hinv
    obtain ⟨w, hw, hwph, hwbm⟩ := h4 t hmem
    have hanc : anchorTile w.item := by
      by_contra hcon
      rcases h2 w hw hcon with h | h <;> rw [hwph] at h <;> cases h
    have he : t = w.item := anchor_of_mem_block ha hanc hwbm
    have hnd' : ((pre ++ ⟨t, .toCheck⟩ :: post).map Worker.item).Nodup := by
      rw [h1]
      exact hnd
    rcases mem_update_cases hw with hmid | hside
    · rw [hmid] at hwph
      cases hwph
    · exact item_ne_of_nodup hnd' w hside he.symm
  | checkAbsent pre post t tch bl ha hmem =>
    exact inv_phase_update hinv (by intro h; cases h)
      (by rintro (h | h) <;> cases h) (by rintro (h | h) <;> cases h)
      (fun hna => absurd ha hna) (fun _ h => by cases h)
  | build pre post t tch bl =>
    obtain ⟨h1, h2, h3, h4, h5, h6⟩ := hinv
    have hnd' : ((pre ++ ⟨t, .toBuild⟩ :: post).map Worker.item).Nodup := by
      rw [h1]
      exact hnd
    have hside := item_ne_of_nodup hnd'
    refine ⟨?_, ?_, ?_, ?_, ?_, ?_⟩
    · rw [← h1]
      simp
    · intro w hw hna
      rcases mem_update_cases hw with he | hw'
      · exfalso
        rcases h2 ⟨t, .toBuild⟩ mid_mem (by rw [he] at hna; exact hna) with h | h <;>
          cases h
      · exact h2 w (mem_of_mem_sides hw') hna
    · intro w hw ha
      rcases mem_update_cases hw with he | hw'
      · rw [he]
        intro h
        cases h
      · exact h3 w (mem_of_mem_sides hw') ha
    · intro a hmem
      obtain ⟨w, hw, hwph, hwbm⟩ := h4 a hmem
      rcases mem_update_cases hw with he | hw'
      · rw [he] at hwph
        cases hwph
      · exact ⟨w, mem_of_mem_sides hw', hwph, hwbm⟩
    · intro k hk
      obtain ⟨w, hw, hwi, hwpb⟩ := hk
      rcases mem_update_cases hw with he | hw'
      · have hkt : t = k := by
          rw [he] at hwi
          exact hwi
        have hz : bl.count k = 0 := by
          apply h6 k
          intro w2 hw2 hwi2
          rcases mem_update_cases hw2 with he2 | hw2'
          · rw [he2]
            rintro (h | h) <;> cases h
          · rw [← hkt] at hwi2
            exact absurd hwi2 (hside w2 hw2')
        rw [← hkt] at hz ⊢
        rw [List.count_cons_self, hz]
      · have hc : bl.count k = 1 := h5 k ⟨w, mem_of_mem_sides hw', hwi, hwpb⟩
        have hkt : t ≠ k := by
          intro he2
          rw [← he2] at hwi
          exact (hside w hw') hwi
        rw [List.count_cons_of_ne (fun h => hkt h.symm), hc]
    · intro k hk
      by_cases hkt : t = k
      · exfalso
        exact hk ⟨t, .toAdd⟩ mid_mem hkt (Or.inl rfl)
      · have hz : bl.count k = 0 := by
          apply h6 k
          intro w hw hwi
          rcases mem_update_cases hw with he | hw'
          · rw [he]
            rintro (h | h) <;> cases h
          · exact hk w (mem_of_mem_sides hw') hwi
        rw [List.count_cons_of_ne (fun h => hkt h.symm), hz]
  | add pre post t tch bl =>
    obtain ⟨h1, h2, h3, h4, h5, h6⟩ := hinv
    refine ⟨?_, ?_, ?_, ?_, ?_, ?_⟩
    · rw [← h1]
      simp
    · intro w hw hna
      rcases mem_update_cases hw with he | hw'
      · exfalso
        rcases h2 ⟨t, .toAdd⟩ mid_mem (by rw [he] at hna; exact hna) with h | h <;>
          cases h
      · exact h2 w (mem_of_mem_sides hw') hna
    · intro w hw ha
      rcases mem_update_cases hw with he | hw'
      · rw [he]
        intro h
        cases h
      · exact h3 w (mem_of_mem_sides hw') ha
    · intro a hmem
      rw [Finset.mem_union] at hmem
      rcases hmem with hmem | hmem
      · obtain ⟨w, hw, hwph, hwbm⟩ := h4 a hmem
        rcases mem_update_cases hw with he | hw'
        · rw [he] at hwph
          cases hwph
        · exact ⟨w, mem_of_mem_sides hw', hwph, hwbm⟩
      · exact ⟨⟨t, .builtDone⟩, mid_mem, rfl, hmem⟩
    · intro k hk
      obtain ⟨w, hw, hwi, hwpb⟩ := hk
      apply h5 k
      rcases mem_update_cases hw with he | hw'
      · refine ⟨⟨t, .toAdd⟩, mid_mem, ?_, Or.inl rfl⟩
        rw [he] at hwi
        exact hwi
      · exact ⟨w, mem_of_mem_sides hw', hwi, hwpb⟩
    · intro k hk
      apply h6 k
      intro w hw hwi
      rcases mem_update_cases hw with he | hw'
      · exfalso
        rw [he] at hwi
        exact hk ⟨t, .builtDone⟩ mid_mem hwi (Or.inr rfl)
      · exact hk w (mem_of_mem_sides hw') hwi

theorem init_inv (ws : List Worker) (hph : ∀ w ∈ ws, w.phase = .toCheck) :
    StInv ws ⟨ws, ∅, []⟩ := by
  refine ⟨rfl, ?_, ?_, ?_, ?_, ?_⟩
  · intro w hw _
    exact Or.inl (hph w hw)
  · intro w hw _
    rw [hph w hw]
    intro h
    cases h
  · intro a hmem
    exact absurd hmem (Finset.not_mem_empty a)
  · rintro k ⟨w, hw, _, hpb | hpb⟩ <;> rw [hph w hw] at hpb <;> cases hpb
  · intro k _
    rfl

theorem reach_preserves_inv {ws0 : List Worker} {c c' : Config}
    (hnd : (ws0.map Worker.item).Nodup)
    (hinv : StInv ws0 c) (hr : Reach c c') : StInv ws0 c' := by
  induction hr with
  | refl => exact hinv
  | tail _ hstep ih => exact step_preserves_inv hnd ih hstep

/-- C1 (amended): with a work list in which every item occurs at most
once - as in the binary, whose list comes from the distinct filenames of
the tiles directory - every interleaving of the worker steps calls
build_tile_img at most once per block key, and when all workers have
finished, exactly once for every anchor item.  The proof goes through
the invariant StInv and does not rely on any atomicity of the
check-then-insert pair, which the code does not provide. -/
theorem stitcher_exactly_once_for_nodup_worklist
    (ws : List Worker) (c : Config)
    (hnd : (ws.map Worker.item).Nodup)
    (hph : ∀ w ∈ ws, w.phase = .toCheck)
    (hr : Reach ⟨ws, ∅, []⟩ c) :
    (∀ k : Tile, c.builds.count k ≤ 1) ∧
    ((∀ w ∈ c.workers, w.phase = .builtDone ∨ w.phase = .skipDone) →
      ∀ w ∈ ws, anchorTile w.item → c.builds.count w.item = 1) := by
  have hinv := reach_preserves_inv hnd (init_inv ws hph) hr
  obtain ⟨h1, h2, h3, h4, h5, h6⟩ := hinv
  constructor
  · intro k
    by_cases hex : ∃ w ∈ c.workers, w.item = k ∧ postBuild w
    · rw [h5 k hex]
    · have : c.builds.count k = 0 := by
        apply h6 k
        intro w hw hwi
        exact fun hpb => hex ⟨w, hw, hwi, hpb⟩
      rw [this]
      exact Nat.zero_le 1
  · intro hterm w hw ha
    have hmem : w.item ∈ c.workers.map Worker.item := by
      rw [h1]
      exact List.mem_map_of_mem Worker.item hw
    rw [List.mem_map] at hmem
    obtain ⟨w', hw', hwi⟩ := hmem
    have ha' : anchorTile w'.item := by
      rw [hwi]
      exact ha
    have hnotskip := h3 w' hw' ha'
    have hdone : w'.phase = .builtDone := by
      rcases hterm w' hw' with h | h
      · exact h
      · exact absurd h hnotskip
    exact h5 w.item ⟨w', hw', hwi, Or.inr hdone⟩

/-- C1 (witness): a single worker holding the anchor work item, before
any step, satisfies the conclusion. -/
theorem stitcher_exactly_once_for_nodup_worklist_witness :
    (∀ k : Tile, (Config.mk [⟨anchor0, .toCheck⟩] ∅ []).builds.count k ≤ 1) ∧
    ((∀ w ∈ (Config.mk [⟨anchor0, .toCheck⟩] ∅ []).workers,
        w.phase = .builtDone ∨ w.phase = .skipDone) →
      ∀ w ∈ [Worker.mk anchor0 .toCheck], anchorTile w.item →
        (Config.mk [⟨anchor0, .toCheck⟩] ∅ []).builds.count w.item = 1) :=
  stitcher_exactly_once_for_nodup_worklist [⟨anchor0, .toCheck⟩] _
    (by simp) (by simp) Relation.ReflTransGen.refl

/-- C1 (counterexample): the check of the touched set and the insertion
into it do not act atomically.  With the same anchor key held by two
workers - the specification's race of W workers over one candidate block
key - there is an interleaving in which both workers observe the key as
absent and both call build_tile_img: the build log reaches two entries
for the key. -/
theorem stitcher_check_insert_not_atomic :
    Reach raceInit raceEnd ∧ raceEnd.builds.count anchor0 = 2 := by
  constructor
  · have ha : anchorTile anchor0 := by
      constructor <;> rfl
    have s1 : Step ⟨[] ++ ⟨anchor0, .toCheck⟩ :: [⟨anchor0, .toCheck⟩], ∅, []⟩
        ⟨[] ++ ⟨anchor0, .toBuild⟩ :: [⟨anchor0, .toCheck⟩], ∅, []⟩ :=
      Step.checkAbsent [] [⟨anchor0, .toCheck⟩] anchor0 ∅ [] ha
        (Finset.not_mem_empty anchor0)
    have s2 : Step ⟨[⟨anchor0, .toBuild⟩] ++ ⟨anchor0, .toCheck⟩ :: [], ∅, []⟩
        ⟨[⟨anchor0, .toBuild⟩] ++ ⟨anchor0, .toBuild⟩ :: [], ∅, []⟩ :=
      Step.checkAbsent [⟨anchor0, .toBuild⟩] [] anchor0 ∅ [] ha
        (Finset.not_mem_empty anchor0)
    have s3 : Step ⟨[] ++ ⟨anchor0, .toBuild⟩ :: [⟨anchor0, .toBuild⟩], ∅, []⟩
        ⟨[] ++ ⟨anchor0, .toAdd⟩ :: [⟨anchor0, .toBuild⟩], ∅, [anchor0]⟩ :=
      Step.build [] [⟨anchor0, .toBuild⟩] anchor0 ∅ []
    have s4 : Step ⟨[⟨anchor0, .toAdd⟩] ++ ⟨anchor0, .toBuild⟩ :: [], ∅, [anchor0]⟩
        ⟨[⟨anchor0, .toAdd⟩] ++ ⟨anchor0, .toAdd⟩ :: [], ∅, anchor0 :: [anchor0]⟩ :=
      Step.build [⟨anchor0, .toAdd⟩] [] anchor0 ∅ [anchor0]
    exact Relation.ReflTransGen.head s1 (Relation.ReflTransGen.head s2
      (Relation.ReflTransGen.head s3 (Relation.ReflTransGen.single s4)))
  · rfl

/-- C3 (code bug): the pre-build existence check of build_tile_img can
never return true, because OpenOptions::new() sets no access mode and
such an open always fails with InvalidInput.  On a disk where the
stitched base file for the anchor already exists, the check still says
false and the function proceeds into the member loop (here aborting on
the missing members) instead of returning early as already built. -/
theorem build_existence_check_never_fires :
    existsCheck ((diskStitched.stitchedTiles anchor0).isSome) = false ∧
    (diskStitched.stitchedTiles anchor0).isSome = true ∧
    (build_tile_img diskStitched anchor0).1 = false := ⟨rfl, rfl, rfl⟩

end Stitch

namespace GenData

theorem trimAux_nil (fuel : ℕ) : trimAux fuel [] = none := by
  cases fuel with
  | zero => rfl
  | succ n => rfl

theorem trimAux_spec (fuel : ℕ) :
    ∀ (l : List (ℤ × ℤ)) (p0 : ℤ × ℤ), l.head? = some p0 → l.length < fuel →
      ((∀ p ∈ l, p = p0) → trimAux fuel l = none) ∧
      ((∃ p ∈ l, p ≠ p0) →
        ∃ kept, trimAux fuel l = some kept ∧ kept ≠ [] ∧ kept.head? = some p0) := by
  induction fuel with
  | zero =>
    intro l p0 _ hlen
    exact absurd hlen (Nat.not_lt_zero _)
  | succ fuel ih =>
    intro l p0 hhead hlen
    rcases l.eq_nil_or_concat with rfl | ⟨init, lst, rfl⟩
    · cases hhead
    · rw [List.concat_eq_append] at hhead hlen ⊢
      have hunf : trimAux (fuel + 1) (init ++ [lst]) =
          if lst = p0 then trimAux fuel init else some (init ++ [lst]) := by
        rw [trimAux]
        rw [List.getLast?_concat, hhead, List.dropLast_concat]
      by_cases heq : lst = p0
      · rw [hunf, if_pos heq]
        subst heq
        cases init with
        | nil =>
          rw [trimAux_nil]
          constructor
          · intro _
            rfl
          · rintro ⟨p, hp, hne⟩
            simp only [List.nil_append, List.mem_singleton] at hp
            exact absurd hp hne
        | cons q0 qrest =>
          have hhead' : (q0 :: qrest).head? = some lst := by
            rw [List.cons_append] at hhead
            rw [List.head?_cons] at hhead ⊢
            exact hhead
          have hlen' : (q0 :: qrest).length < fuel := by
            simp only [List.length_append, List.length_cons] at hlen ⊢
            omega
          obtain ⟨hall', hex'⟩ := ih (q0 :: qrest) lst hhead' hlen'
          constructor
          · intro hall
            apply hall'
            intro p hp
            exact hall p (List.mem_append_left _ hp)
          · rintro ⟨p, hp, hne⟩
            apply hex'
            rcases List.mem_append.mp hp with hp' | hp'
            · exact ⟨p, hp', hne⟩
            · rw [List.mem_singleton] at hp'
              rw [hp'] at hne
              exact absurd rfl hne
      · rw [hunf, if_neg heq]
        constructor
        · intro hall
          exact absurd (hall lst (List.mem_append_right _ (List.mem_singleton_self lst))) heq
        · intro _
          exact ⟨init ++ [lst], rfl, by simp, hhead⟩

theorem trimClosing_none_of_all_eq (p0 : ℤ × ℤ) (l : List (ℤ × ℤ))
    (hall : ∀ p ∈ p0 :: l, p = p0) : trimClosing (p0 :: l) = none :=
  ((trimAux_spec ((p0 :: l).length + 1) (p0 :: l) p0 rfl (Nat.lt_succ_self _)).1) hall

theorem trimClosing_some_of_exists_ne (p0 : ℤ × ℤ) (l : List (ℤ × ℤ))
    (hex : ∃ p ∈ p0 :: l, p ≠ p0) :
    ∃ kept, trimClosing (p0 :: l) = some kept ∧ kept ≠ [] ∧ kept.head? = some p0 :=
  ((trimAux_spec ((p0 :: l).length + 1) (p0 :: l) p0 rfl (Nat.lt_succ_self _)).2) hex

theorem prepare_tile_bails (ext : Externals) (st : ImageCache) (t : Tile)
    (h1 : ¬ t ∈ st.tiles)
    (h2 : overlapsBBox interestBBox (tileBBoxOf ext t) = false) :
    prepare_tile ext st t = (.error .bail, st) := by
  unfold prepare_tile
  rw [if_pos ⟨h1, h2⟩]

theorem prepare_tile_cached (ext : Externals) (st : ImageCache) (t : Tile)
    (h1 : t ∈ st.tiles) (h2 : (st.outlines.lookup t).isSome) :
    prepare_tile ext st t = (.ok (), st) := by
  unfold prepare_tile
  rw [if_neg (fun hc => hc.1 h1), if_pos ⟨h1, h2⟩]

theorem prepare_tile_panics (ext : Externals) (st : ImageCache) (t : Tile)
    (h1 : ¬ (¬ t ∈ st.tiles ∧ overlapsBBox interestBBox (tileBBoxOf ext t) = false))
    (h2 : ¬ (t ∈ st.tiles ∧ (st.outlines.lookup t).isSome))
    (h3 : t.zoom ≠ ZOOM) :
    prepare_tile ext st t = (.error .panic, st) := by
  unfold prepare_tile
  rw [if_neg h1, if_neg h2, if_pos h3]

theorem prepare_tile_fetch_eq (ext : Externals) (st : ImageCache) (t : Tile)
    (h2 : ¬ (t ∈ st.tiles ∧ (st.outlines.lookup t).isSome))
    (h1 : t ∈ st.tiles ∨ overlapsBBox interestBBox (tileBBoxOf ext t) = true)
    (h3 : t.zoom = ZOOM) :
    prepare_tile ext st t = (.ok (), { st with
      tiles := t :: st.tiles
      outlines := (t, Image.blank (ext.fetchDecode t).width (ext.fetchDecode t).height)
        :: st.outlines
      fetchCalls := st.fetchCalls + 1 }) := by
  unfold prepare_tile
  have hc1 : ¬ (¬ t ∈ st.tiles ∧ overlapsBBox interestBBox (tileBBoxOf ext t) = false) := by
    rcases h1 with h | h
    · exact fun hc => hc.1 h
    · rw [h]
      rintro ⟨-, hfalse⟩
      cases hfalse
  rw [if_neg hc1, if_neg h2, if_neg (not_not_intro h3)]

theorem prepare_tile_twice_state (ext : Externals) (st : ImageCache) (t : Tile) :
    (prepare_tile ext (prepare_tile ext st t).2 t).2 = (prepare_tile ext st t).2 := by
  by_cases hc1 : ¬ t ∈ st.tiles ∧ overlapsBBox interestBBox (tileBBoxOf ext t) = false
  · rw [prepare_tile_bails ext st t hc1.1 hc1.2]
    rw [prepare_tile_bails ext st t hc1.1 hc1.2]
  · by_cases hc2 : t ∈ st.tiles ∧ (st.outlines.lookup t).isSome
    · rw [prepare_tile_cached ext st t hc2.1 hc2.2]
      rw [prepare_tile_cached ext st t hc2.1 hc2.2]
    · have hside : t ∈ st.tiles ∨ overlapsBBox interestBBox (tileBBoxOf ext t) = true := by
        by_cases hm : t ∈ st.tiles
        · exact Or.inl hm
        · rcases Bool.eq_false_or_eq_true (overlapsBBox interestBBox (tileBBoxOf ext t))
            with h | h
          · exact Or.inr h
          · exact absurd ⟨hm, h⟩ hc1
      by_cases hc3 : t.zoom = ZOOM
      · rw [prepare_tile_fetch_eq ext st t hc2 hside hc3]
        rw [prepare_tile_cached ext _ t (List.mem_cons_self t _) (by simp [List.lookup])]
      · rw [prepare_tile_panics ext st t hc1 hc2 hc3]
        rw [prepare_tile_panics ext st t hc1 hc2 hc3]

/-- C6: prepare_tile is idempotent.  If the address is present in the
cache (registered in the tiles map with an outline canvas), the call is
a no-op returning Ok on the unchanged state; a second call on the state
left by any first call never changes the state again (so in particular
it performs no further fetch); and a call that needs imagery - address
not fully present, and known or inside the area of interest, at the
working zoom - performs exactly one fetch. -/
theorem prepare_tile_idempotent_one_fetch (ext : Externals) (st : ImageCache) (t : Tile) :
    ((t ∈ st.tiles ∧ (st.outlines.lookup t).isSome) → prepare_tile ext st t = (.ok (), st)) ∧
    (prepare_tile ext (prepare_tile ext st t).2 t).2 = (prepare_tile ext st t).2 ∧
    ((¬ (t ∈ st.tiles ∧ (st.outlines.lookup t).isSome)) →
      (t ∈ st.tiles ∨ overlapsBBox interestBBox (tileBBoxOf ext t) = true) →
      t.zoom = ZOOM →
      (prepare_tile ext st t).2.fetchCalls = st.fetchCalls + 1) := by
  refine ⟨fun h => prepare_tile_cached ext st t h.1 h.2,
    prepare_tile_twice_state ext st t, fun h2 h1 h3 => ?_⟩
  rw [prepare_tile_fetch_eq ext st t h2 h1 h3]

/-- C6 (witness): on the empty cache the in-interest tile tIn is fetched
exactly once, and on the cache already holding tIn the call is a
no-op. -/
theorem prepare_tile_idempotent_one_fetch_witness :
    (prepare_tile ext0 stEmpty tIn).2.fetchCalls = stEmpty.fetchCalls + 1 ∧
    prepare_tile ext0 stIn tIn = (.ok (), stIn) :=
  ⟨(prepare_tile_idempotent_one_fetch ext0 stEmpty tIn).2.2
      (by simp [stEmpty]) (Or.inr (by with_unfolding_all decide)) rfl,
   (prepare_tile_idempotent_one_fetch ext0 stIn tIn).1 ⟨by simp [stIn], rfl⟩⟩

theorem drawLoop_cons_bail (ext : Externals) (poly : List GeoCoordinate)
    (how : BuildingColor) (t : Tile) (rest : List Tile) (st : ImageCache)
    (h1 : ¬ t ∈ st.tiles)
    (h2 : overlapsBBox interestBBox (tileBBoxOf ext t) = false) :
    drawLoop ext poly how (t :: rest) st =
      (.error .bail, { st with dirty := t :: st.dirty }) := by
  rw [drawLoop]
  rw [prepare_tile_bails ext { st with dirty := t :: st.dirty } t h1 h2]

theorem drawLoop_cons_prepared_trimnone (ext : Externals)
    (poly : List GeoCoordinate) (how : BuildingColor) (t : Tile)
    (rest : List Tile) (st : ImageCache) (img : Image)
    (hprep : prepare_tile ext { st with dirty := t :: st.dirty } t =
      (.ok (), { st with dirty := t :: st.dirty }))
    (hlook : st.outlines.lookup t = some img)
    (htrim : trimClosing
      (poly.map (geo_to_screen_coordinate ext t (img.width, img.height))) = none) :
    drawLoop ext poly how (t :: rest) st =
      (.error .panic, { st with dirty := t :: st.dirty }) := by
  rw [drawLoop]
  simp only [hprep, hlook, htrim]

theorem drawLoop_cons_prepared_colornone (ext : Externals)
    (poly : List GeoCoordinate) (how : BuildingColor) (t : Tile)
    (rest : List Tile) (st : ImageCache) (img : Image) (kept : List (ℤ × ℤ))
    (hprep : prepare_tile ext { st with dirty := t :: st.dirty } t =
      (.ok (), { st with dirty := t :: st.dirty }))
    (hlook : st.outlines.lookup t = some img)
    (htrim : trimClosing
      (poly.map (geo_to_screen_coordinate ext t (img.width, img.height))) = some kept)
    (hcol : COLOR_INDEX.get? how.toIdx = none) :
    drawLoop ext poly how (t :: rest) st =
      (.error .panic, { st with dirty := t :: st.dirty }) := by
  rw [drawLoop]
  simp only [hprep, hlook, htrim, hcol]

theorem drawLoop_cons_prepared_draws (ext : Externals)
    (poly : List GeoCoordinate) (how : BuildingColor) (t : Tile)
    (rest : List Tile) (st : ImageCache) (img : Image) (kept : List (ℤ × ℤ))
    (col : Rgb)
    (hprep : prepare_tile ext { st with dirty := t :: st.dirty } t =
      (.ok (), { st with dirty := t :: st.dirty }))
    (hlook : st.outlines.lookup t = some img)
    (htrim : trimClosing
      (poly.map (geo_to_screen_coordinate ext t (img.width, img.height))) = some kept)
    (hcol : COLOR_INDEX.get? how.toIdx = some col) :
    drawLoop ext poly how (t :: rest) st =
      drawLoop ext poly how rest { st with
        tiles := st.tiles
        outlines := (t, ext.drawPoly img kept col) :: st.outlines
        dirty := t :: st.dirty
        drawCalls := st.drawCalls + 1 } := by
  rw [drawLoop]
  simp only [hprep, hlook, htrim, hcol]

theorem prepare_tile_tiles_superset (ext : Externals) (st : ImageCache) (t : Tile) :
    (prepare_tile ext st t).2.tiles = st.tiles ∨
    (prepare_tile ext st t).2.tiles = t :: st.tiles := by
  unfold prepare_tile
  split
  · exact Or.inl rfl
  split
  · exact Or.inl rfl
  split
  · exact Or.inl rfl
  · exact Or.inr rfl

theorem drawLoop_isErr_of_bad (ext : Externals) (poly : List GeoCoordinate)
    (how : BuildingColor) :
    ∀ (l : List Tile) (st : ImageCache) (t : Tile), t ∈ l → l.Nodup →
      ¬ t ∈ st.tiles → overlapsBBox interestBBox (tileBBoxOf ext t) = false →
      isErr (drawLoop ext poly how l st).1 = true := by
  intro l
  induction l with
  | nil =>
    intro st t h
    cases h
  | cons u rest ih =>
    intro st t hmem hnd hc ho
    rcases List.mem_cons.mp hmem with rfl | hmem'
    · rw [drawLoop_cons_bail ext poly how t rest st hc ho]
      rfl
    · have hne : u ≠ t := by
        intro he
        rw [List.nodup_cons] at hnd
        rw [he] at hnd
        exact hnd.1 hmem'
      rw [drawLoop]
      rcases hprep : prepare_tile ext { st with dirty := u :: st.dirty } u with ⟨r, st2⟩
      have htiles : st2.tiles = st.tiles ∨ st2.tiles = u :: st.tiles := by
        have h := prepare_tile_tiles_superset ext { st with dirty := u :: st.dirty } u
        rw [hprep] at h
        exact h
      have hc2 : ¬ t ∈ st2.tiles := by
        rcases htiles with h | h <;> rw [h]
        · exact hc
        · rw [List.mem_cons]
          rintro (he | hm)
          · exact hne he.symm
          · exact hc hm
      cases r with
      | error e =>
        simp only [hprep]
        rfl
      | ok u' =>
        simp only [hprep]
        cases hlook : st2.outlines.lookup u with
        | none =>
          simp only [hlook]
          rfl
        | some img =>
          simp only [hlook]
          cases htrim : trimClosing
              (poly.map (geo_to_screen_coordinate ext u (img.width, img.height))) with
          | none =>
            simp only [htrim]
            rfl
          | some kept =>
            simp only [htrim]
            cases hcol : COLOR_INDEX.get? how.toIdx with
            | none =>
              simp only [hcol]
              rfl
            | some col =>
              simp only [hcol]
              exact ih _ t hmem' (List.nodup_cons.mp hnd).2 hc2 ho

/-- C5 (amended): a touched tile that is uncached and rejected by the
area-of-interest box does not get silently skipped: the bail error of
prepare_tile propagates through the question-mark operator and
draw_polygon returns an error, so the remaining touched tiles of the
polygon are not drawn either.  The per-polygon recovery happens only in
the caller of fetch_outline_way, which logs the error and moves on. -/
theorem draw_polygon_errors_on_out_of_interest (ext : Externals)
    (st : ImageCache) (poly : List GeoCoordinate) (how : BuildingColor)
    (ts : List Tile) (t : Tile)
    (hts : tilesOfPoly ext poly = some ts)
    (hmem : t ∈ ts.dedup)
    (hc : ¬ t ∈ st.tiles)
    (ho : overlapsBBox interestBBox (tileBBoxOf ext t) = false) :
    isErr (draw_polygon ext st poly how).1 = true := by
  simp only [draw_polygon, hts]
  exact drawLoop_isErr_of_bad ext poly how ts.dedup st t hmem ts.nodup_dedup hc ho

theorem lonToX_37 : lonToX 37 = 79007 := by
  with_unfolding_all decide

theorem lonToX_neg179 : lonToX (-179) = 364 := by
  with_unfolding_all decide

theorem tile_of_lon37 (lat : ℚ) :
    Tile.new ZOOM (latLonToTile ext0 lat 37).1 (latLonToTile ext0 lat 37).2 = some tIn := by
  simp only [latLonToTile, ext0, lonToX_37]
  rw [Tile.new, if_pos (by constructor <;> decide)]
  rfl

theorem tile_of_lonNeg179 (lat : ℚ) :
    Tile.new ZOOM (latLonToTile ext0 lat (-179)).1 (latLonToTile ext0 lat (-179)).2 =
      some tOut := by
  simp only [latLonToTile, ext0, lonToX_neg179]
  rw [Tile.new, if_pos (by constructor <;> decide)]
  rfl

theorem tilesOfPoly_polySpan : tilesOfPoly ext0 polySpan = some [tOut, tIn] := by
  simp only [polySpan, tilesOfPoly, tile_of_lon37, tile_of_lonNeg179]

/-- C5 (witness): the two-vertex polygon spanning the rejected tile tOut
and the cached in-interest tile tIn makes draw_polygon fail. -/
theorem draw_polygon_errors_on_out_of_interest_witness :
    isErr (draw_polygon ext0 stIn polySpan .Normal).1 = true :=
  draw_polygon_errors_on_out_of_interest ext0 stIn polySpan .Normal [tOut, tIn] tOut
    tilesOfPoly_polySpan (by decide) (by decide) (by with_unfolding_all decide)

/-- C5 (counterexample): the claim says the out-of-interest touched tile
is skipped silently and the polygon is still drawn into every
in-interest touched tile.  On the concrete polygon polySpan, whose
touched set holds the rejected uncached tile tOut and the cached
in-interest tile tIn, draw_polygon instead returns the bail error, and
the final state shows no outline was drawn anywhere (only the dirty mark
of tOut changed): the whole rasterization failed. -/
theorem draw_polygon_out_of_interest_aborts_polygon :
    tilesOfPoly ext0 polySpan = some [tOut, tIn] ∧
    tIn ∈ stIn.tiles ∧
    overlapsBBox interestBBox (tileBBoxOf ext0 tIn) = true ∧
    draw_polygon ext0 stIn polySpan .Normal =
      (.error .bail, { stIn with dirty := [tOut] }) := by
  refine ⟨tilesOfPoly_polySpan, by decide, by with_unfolding_all decide, ?_⟩
  simp only [draw_polygon, tilesOfPoly_polySpan]
  have hd : [tOut, tIn].dedup = [tOut, tIn] := by decide
  rw [hd]
  rw [drawLoop_cons_bail ext0 polySpan .Normal tOut [tIn] stIn (by decide)
    (by with_unfolding_all decide)]
  rfl

theorem projPoint1 :
    geo_to_screen_coordinate ext0 tIn (256, 256) ⟨37, 55.4999⟩ =
      geo_to_screen_coordinate ext0 tIn (256, 256) ⟨37, 55.5⟩ := by
  with_unfolding_all decide

theorem projPoint2 :
    geo_to_screen_coordinate ext0 tIn (256, 256) ⟨37, 55.4998⟩ =
      geo_to_screen_coordinate ext0 tIn (256, 256) ⟨37, 55.5⟩ := by
  with_unfolding_all decide

theorem projTwoNe :
    geo_to_screen_coordinate ext0 tIn (256, 256) ⟨37, 55.49⟩ ≠
      geo_to_screen_coordinate ext0 tIn (256, 256) ⟨37, 55.5⟩ := by
  with_unfolding_all decide

theorem tilesOfPoly_polyTwo : tilesOfPoly ext0 polyTwo = some [tIn, tIn] := by
  simp only [polyTwo, tilesOfPoly, tile_of_lon37]

theorem tilesOfPoly_polyPoint :
    tilesOfPoly ext0 polyPoint = some [tIn, tIn, tIn] := by
  simp only [polyPoint, tilesOfPoly, tile_of_lon37]

theorem tilesOfPoly_polyClosed :
    tilesOfPoly ext0 polyClosed = some [tIn, tIn, tIn] := by
  simp only [polyClosed, tilesOfPoly, tile_of_lon37]

theorem prepare_stIn_marked :
    prepare_tile ext0 { stIn with dirty := tIn :: stIn.dirty } tIn =
      (.ok (), { stIn with dirty := tIn :: stIn.dirty }) :=
  prepare_tile_cached ext0 _ tIn (by simp [stIn]) rfl

/-- C4 (amended): the color lookup succeeds for every classification the
rasterizer can produce except BuildingHasExcludedTags, whose
discriminant 3 falls outside the three-entry COLOR_INDEX. -/
theorem color_table_total_without_excluded :
    ∀ c : BuildingColor, c ≠ .BuildingHasExcludedTags →
      (COLOR_INDEX.get? c.toIdx).isSome = true := by
  intro c hc
  cases c
  · rfl
  · rfl
  · rfl
  · exact absurd rfl hc

/-- C4 (witness): the Normal classification resolves to a color. -/
theorem color_table_total_without_excluded_witness :
    (COLOR_INDEX.get? BuildingColor.Normal.toIdx).isSome = true :=
  color_table_total_without_excluded .Normal (by decide)

/-- C4 (counterexample): the color table is not total.  COLOR_INDEX has
three entries while BuildingHasExcludedTags casts to index 3, so the
lookup fails, and on a concrete cached polygon draw_polygon panics for
that classification while succeeding for Normal. -/
theorem color_lookup_fails_for_excluded_tags :
    COLOR_INDEX.get? BuildingColor.BuildingHasExcludedTags.toIdx = none ∧
    COLOR_INDEX.length = 3 ∧
    (draw_polygon ext0 stIn polyTwo .BuildingHasExcludedTags).1 = .error .panic ∧
    (draw_polygon ext0 stIn polyTwo .Normal).1 = .ok () := by
  have hlook : stIn.outlines.lookup tIn = some (Image.blank 256 256) := rfl
  have hmap : polyTwo.map (geo_to_screen_coordinate ext0 tIn
      ((Image.blank 256 256).width, (Image.blank 256 256).height)) =
      geo_to_screen_coordinate ext0 tIn (256, 256) ⟨37, 55.5⟩ ::
      [geo_to_screen_coordinate ext0 tIn (256, 256) ⟨37, 55.49⟩] := rfl
  obtain ⟨kept, hk, hkn, hkh⟩ := trimClosing_some_of_exists_ne
    (geo_to_screen_coordinate ext0 tIn (256, 256) ⟨37, 55.5⟩)
    [geo_to_screen_coordinate ext0 tIn (256, 256) ⟨37, 55.49⟩]
    ⟨geo_to_screen_coordinate ext0 tIn (256, 256) ⟨37, 55.49⟩, by simp, projTwoNe⟩
  have hd : [tIn, tIn].dedup = [tIn] := by decide
  refine ⟨rfl, rfl, ?_, ?_⟩
  · simp only [draw_polygon, tilesOfPoly_polyTwo]
    rw [hd]
    rw [drawLoop_cons_prepared_colornone ext0 polyTwo .BuildingHasExcludedTags tIn []
      stIn (Image.blank 256 256) kept prepare_stIn_marked hlook
      (by rw [hmap]; exact hk) rfl]
  · simp only [draw_polygon, tilesOfPoly_polyTwo]
    rw [hd]
    rw [drawLoop_cons_prepared_draws ext0 polyTwo .Normal tIn [] stIn
      (Image.blank 256 256) kept (0, 255, 0) prepare_stIn_marked hlook
      (by rw [hmap]; exact hk) rfl]
    rfl

/-- C7 (amended): the closing-point loop removes every trailing
projected vertex equal to the first one, not just a single closing
point.  When some projected vertex differs from the first, the loop
terminates with a nonempty list still starting at the first vertex and
the draw call proceeds; when all projected vertices are equal, the loop
pops the list empty and the following last().unwrap() panics, so the
operation does fail on such a vertex list. -/
theorem trim_closing_spec (p0 : ℤ × ℤ) (l : List (ℤ × ℤ)) :
    ((∀ p ∈ p0 :: l, p = p0) → trimClosing (p0 :: l) = none) ∧
    ((∃ p ∈ p0 :: l, p ≠ p0) →
      ∃ kept, trimClosing (p0 :: l) = some kept ∧ kept ≠ [] ∧ kept.head? = some p0) :=
  ⟨trimClosing_none_of_all_eq p0 l, trimClosing_some_of_exists_ne p0 l⟩

/-- C7 (witness): a projected square-like list with a distinct middle
point keeps a nonempty list after closing-point removal. -/
theorem trim_closing_spec_witness :
    ∃ kept, trimClosing [(0, 0), (1, 1), (0, 0)] = some kept ∧ kept ≠ [] ∧
      kept.head? = some ((0 : ℤ), (0 : ℤ)) :=
  (trim_closing_spec (0, 0) [(1, 1), (0, 0)]).2 ⟨(1, 1), by decide, by decide⟩

/-- C7 (counterexample): a polygon with three distinct geographic
vertices that all project to the same pixel of its (cached, in-interest)
tile makes the closing-point loop pop the entire projected list, and
draw_polygon panics instead of completing the removal and drawing. -/
theorem draw_polygon_panics_on_pointlike_polygon :
    polyPoint.length = 3 ∧ polyPoint.Nodup ∧
    (draw_polygon ext0 stIn polyPoint .Normal).1 = .error .panic := by
  refine ⟨rfl, by with_unfolding_all decide, ?_⟩
  have hlook : stIn.outlines.lookup tIn = some (Image.blank 256 256) := rfl
  have hmap : polyPoint.map (geo_to_screen_coordinate ext0 tIn
      ((Image.blank 256 256).width, (Image.blank 256 256).height)) =
      geo_to_screen_coordinate ext0 tIn (256, 256) ⟨37, 55.5⟩ ::
      [geo_to_screen_coordinate ext0 tIn (256, 256) ⟨37, 55.4999⟩,
       geo_to_screen_coordinate ext0 tIn (256, 256) ⟨37, 55.4998⟩] := rfl
  have hall : ∀ p ∈ geo_to_screen_coordinate ext0 tIn (256, 256) ⟨37, 55.5⟩ ::
      [geo_to_screen_coordinate ext0 tIn (256, 256) ⟨37, 55.4999⟩,
       geo_to_screen_coordinate ext0 tIn (256, 256) ⟨37, 55.4998⟩],
      p = geo_to_screen_coordinate ext0 tIn (256, 256) ⟨37, 55.5⟩ := by
    intro p hp
    rcases List.mem_cons.mp hp with rfl | hp
    · rfl
    rcases List.mem_cons.mp hp with rfl | hp
    · exact projPoint1
    rcases List.mem_cons.mp hp with rfl | hp
    · exact projPoint2
    cases hp
  have htrim := trimClosing_none_of_all_eq _ _ hall
  simp only [draw_polygon, tilesOfPoly_polyPoint]
  rw [(by decide : [tIn, tIn, tIn].dedup = [tIn])]
  rw [drawLoop_cons_prepared_trimnone ext0 polyPoint .Normal tIn [] stIn
    (Image.blank 256 256) prepare_stIn_marked hlook (by rw [hmap]; exact htrim)]

/-- C8 (amended): fetch_outline_way rejects, before any classification
or drawing and without touching the cache, exactly the ways with fewer
than three node references (duplicates included) or with an unresolved
node reference, returning Ok so the caller goes on with the next way.  A
way with three or more references, all resolved, is not rejected even
when fewer than three distinct vertices remain after closing-point
removal. -/
theorem fetch_outline_way_rejects_short_or_unresolved (ext : Externals)
    (st : ImageCache) (way : Way) (nodes : List (ℤ × Node))
    (h : way.nodes.length < 3 ∨ ∃ v ∈ way.nodes, nodes.lookup v = none) :
    fetch_outline_way ext st way nodes = (.ok (), st) := by
  rcases h with h | ⟨v, hv, hnone⟩
  · simp only [fetch_outline_way]
    rw [if_pos h]
  · by_cases hlen : way.nodes.length < 3
    · simp only [fetch_outline_way]
      rw [if_pos hlen]
    · have hcond : ¬ ((way.nodes.map (fun v => nodes.lookup v)).all Option.isSome = true) := by
        intro hall
        rw [List.all_eq_true] at hall
        have hx := hall (nodes.lookup v) (List.mem_map_of_mem _ hv)
        rw [hnone] at hx
        cases hx
      simp only [fetch_outline_way]
      rw [if_neg hlen, if_pos hcond]

/-- C8 (witness): a two-reference way is rejected with Ok and an
unchanged cache. -/
theorem fetch_outline_way_rejects_short_or_unresolved_witness :
    fetch_outline_way ext0 stEmpty ⟨[1, 2]⟩ [] = (.ok (), stEmpty) :=
  fetch_outline_way_rejects_short_or_unresolved ext0 stEmpty ⟨[1, 2]⟩ []
    (Or.inl (by decide))

/-- C8 (counterexample): the closed way [1, 2, 1] resolves to three
vertices of which only two are distinct after closing-point removal,
yet it is not rejected: fetch_outline_way classifies it (area below the
threshold) and draws it, leaving one draw call, a dirty tile and a
rewritten outline canvas - raster output the claim says must not be
produced. -/
theorem fetch_outline_way_draws_degenerate_closed_way :
    wayClosed.nodes.length = 3 ∧
    fetch_outline_way ext0 stIn wayClosed nodesClosed =
      (.ok (), { stIn with
        outlines := (tIn, Image.blank 256 256) :: stIn.outlines
        dirty := [tIn]
        drawCalls := 1 }) := by
  refine ⟨rfl, ?_⟩
  simp only [fetch_outline_way]
  rw [if_neg (by decide : ¬ wayClosed.nodes.length < 3)]
  have hlooked : wayClosed.nodes.map (fun v => nodesClosed.lookup v) =
      [some ⟨555000000, 370000000⟩, some ⟨554900000, 370000000⟩,
       some ⟨555000000, 370000000⟩] := rfl
  rw [hlooked]
  rw [if_neg (not_not_intro (by rfl))]
  have hco : ([some (⟨555000000, 370000000⟩ : Node), some ⟨554900000, 370000000⟩,
      some ⟨555000000, 370000000⟩]).reduceOption.map (fun n =>
        GeoCoordinate.mk ((n.decimicro_lon : ℚ) / 10000000)
          ((n.decimicro_lat : ℚ) / 10000000)) = polyClosed := by
    have hro : ([some (⟨555000000, 370000000⟩ : Node), some ⟨554900000, 370000000⟩,
        some ⟨555000000, 370000000⟩]).reduceOption =
        [⟨555000000, 370000000⟩, ⟨554900000, 370000000⟩, ⟨555000000, 370000000⟩] := rfl
    rw [hro]
    simp only [List.map, polyClosed, List.cons.injEq, GeoCoordinate.mk.injEq, and_true]
    norm_num
  rw [hco]
  rw [if_pos (show |ext0.geodesicArea polyClosed| < 100 by
    have hz : ext0.geodesicArea polyClosed = 0 := rfl
    rw [hz]
    norm_num)]
  have hlook : stIn.outlines.lookup tIn = some (Image.blank 256 256) := rfl
  have hmap : polyClosed.map (geo_to_screen_coordinate ext0 tIn
      ((Image.blank 256 256).width, (Image.blank 256 256).height)) =
      geo_to_screen_coordinate ext0 tIn (256, 256) ⟨37, 55.5⟩ ::
      [geo_to_screen_coordinate ext0 tIn (256, 256) ⟨37, 55.49⟩,
       geo_to_screen_coordinate ext0 tIn (256, 256) ⟨37, 55.5⟩] := rfl
  obtain ⟨kept, hk, hkn, hkh⟩ := trimClosing_some_of_exists_ne
    (geo_to_screen_coordinate ext0 tIn (256, 256) ⟨37, 55.5⟩)
    [geo_to_screen_coordinate ext0 tIn (256, 256) ⟨37, 55.49⟩,
     geo_to_screen_coordinate ext0 tIn (256, 256) ⟨37, 55.5⟩]
    ⟨geo_to_screen_coordinate ext0 tIn (256, 256) ⟨37, 55.49⟩, by simp, projTwoNe⟩
  simp only [draw_polygon, tilesOfPoly_polyClosed]
  rw [(by decide : [tIn, tIn, tIn].dedup = [tIn])]
  rw [drawLoop_cons_prepared_draws ext0 polyClosed .BuildingBelowAreaThreshold tIn []
    stIn (Image.blank 256 256) kept (255, 0, 0) prepare_stIn_marked hlook
    (by rw [hmap]; exact hk) rfl]
  rfl

theorem translate_at_left (a b w : ℚ) : translate a a b 0 w = 0 := by
  simp [translate]

theorem translate_at_right (a b w : ℚ) (h : b ≠ a) : translate b a b 0 w = w := by
  simp only [translate]
  rw [div_self (sub_ne_zero_of_ne h)]
  ring

theorem ratTrunc_zero : ratTrunc 0 = 0 := rfl

theorem ratTrunc_natCast (n : ℕ) : ratTrunc (n : ℚ) = (n : ℤ) := by
  unfold ratTrunc
  rw [Rat.num_natCast, Rat.den_natCast]
  rw [Int.natCast_one, Int.tdiv_one]

theorem lonRight_sub_lonLeft (x : ℕ) : lonRight x - lonLeft x = 360 / 2 ^ ZOOM := by
  unfold lonRight lonLeft
  push_cast
  ring

theorem lonRight_ne_lonLeft (x : ℕ) : lonRight x ≠ lonLeft x := by
  intro h
  have hd := lonRight_sub_lonLeft x
  rw [h, sub_self] at hd
  rw [ZOOM] at hd
  norm_num at hd

/-- C9: projecting a geographic coordinate into tile-local pixel space
is the linear interpolation of longitude from [west, east] onto
[0, width] and of latitude from [north, south] onto [0, height], with
latitude growing downward: the north-west corner lands on pixel (0, 0)
and the south-east corner on (width, height).  The only hypothesis is
that the tile's mercator top and bottom latitudes differ, which holds
for every real tile. -/
theorem geo_to_screen_is_linear_interpolation (ext : Externals) (tile : Tile)
    (W H : ℕ) (hlat : ext.yToLatTop tile.y ≠ ext.yToLatBottom tile.y) :
    (∀ value lmin lmax rmin rmax : ℚ, translate value lmin lmax rmin rmax =
      rmin + (value - lmin) / (lmax - lmin) * (rmax - rmin)) ∧
    geo_to_screen_coordinate ext tile (W, H)
      ⟨lonLeft tile.x, ext.yToLatTop tile.y⟩ = (0, 0) ∧
    geo_to_screen_coordinate ext tile (W, H)
      ⟨lonRight tile.x, ext.yToLatBottom tile.y⟩ = ((W : ℤ), (H : ℤ)) := by
  refine ⟨fun v a b c d => rfl, ?_, ?_⟩
  · show (ratTrunc (translate (lonLeft tile.x) (lonLeft tile.x) (lonRight tile.x)
        0 (W : ℚ)),
      ratTrunc (translate (ext.yToLatTop tile.y) (ext.yToLatTop tile.y)
        (ext.yToLatBottom tile.y) 0 (H : ℚ))) = (0, 0)
    rw [translate_at_left, translate_at_left, ratTrunc_zero]
  · show (ratTrunc (translate (lonRight tile.x) (lonLeft tile.x) (lonRight tile.x)
        0 (W : ℚ)),
      ratTrunc (translate (ext.yToLatBottom tile.y) (ext.yToLatTop tile.y)
        (ext.yToLatBottom tile.y) 0 (H : ℚ))) = ((W : ℤ), (H : ℤ))
    rw [translate_at_right _ _ _ (lonRight_ne_lonLeft tile.x),
      translate_at_right _ _ _ (Ne.symm hlat), ratTrunc_natCast, ratTrunc_natCast]

/-- C9 (witness): the corner mapping evaluated on the concrete tile tIn
with a 256 by 256 canvas. -/
theorem geo_to_screen_is_linear_interpolation_witness :
    geo_to_screen_coordinate ext0 tIn (256, 256)
      ⟨lonLeft tIn.x, ext0.yToLatTop tIn.y⟩ = (0, 0) ∧
    geo_to_screen_coordinate ext0 tIn (256, 256)
      ⟨lonRight tIn.x, ext0.yToLatBottom tIn.y⟩ = ((256 : ℤ), (256 : ℤ)) :=
  ⟨(geo_to_screen_is_linear_interpolation ext0 tIn 256 256
      (by with_unfolding_all decide)).2.1,
   (geo_to_screen_is_linear_interpolation ext0 tIn 256 256
      (by with_unfolding_all decide)).2.2⟩

theorem interest_or_mem_of_not_bail {ext : Externals} {st : ImageCache} {t : Tile}
    (hc1 : ¬ (¬ t ∈ st.tiles ∧ overlapsBBox interestBBox (tileBBoxOf ext t) = false)) :
    t ∈ st.tiles ∨ overlapsBBox interestBBox (tileBBoxOf ext t) = true := by
  by_cases hm : t ∈ st.tiles
  · exact Or.inl hm
  · rcases Bool.eq_false_or_eq_true (overlapsBBox interestBBox (tileBBoxOf ext t))
      with h | h
    · exact Or.inr h
    · exact absurd ⟨hm, h⟩ hc1

theorem nT_zoom {z x y : ℕ} {t : Tile} (h : Tile.new z x y = some t) :
    t.zoom = z := by
  unfold Tile.new at h
  split at h
  · injection h with h2
    rw [← h2]
  · cases h

theorem prepare_tile_zoomInv (ext : Externals) (st : ImageCache) (t : Tile)
    (h : zoomInv st) : zoomInv (prepare_tile ext st t).2 := by
  by_cases hc1 : ¬ t ∈ st.tiles ∧ overlapsBBox interestBBox (tileBBoxOf ext t) = false
  · rw [prepare_tile_bails ext st t hc1.1 hc1.2]
    exact h
  · by_cases hc2 : t ∈ st.tiles ∧ (st.outlines.lookup t).isSome
    · rw [prepare_tile_cached ext st t hc2.1 hc2.2]
      exact h
    · by_cases hc3 : t.zoom = ZOOM
      · rw [prepare_tile_fetch_eq ext st t hc2 (interest_or_mem_of_not_bail hc1) hc3]
        obtain ⟨hI1, hI2, hI3⟩ := h
        refine ⟨?_, ?_, hI3⟩
        · intro u hu
          rcases List.mem_cons.mp hu with rfl | hu
          · exact hc3
          · exact hI1 u hu
        · intro p hp
          rcases List.mem_cons.mp hp with rfl | hp
          · exact hc3
          · exact hI2 p hp
      · rw [prepare_tile_panics ext st t hc1 hc2 hc3]
        exact h

theorem tilesOfPoly_zoom (ext : Externals) :
    ∀ (poly : List GeoCoordinate) (ts : List Tile),
      tilesOfPoly ext poly = some ts → ∀ t ∈ ts, t.zoom = ZOOM := by
  intro poly
  induction poly with
  | nil =>
    intro ts h t ht
    injection h with h2
    rw [← h2] at ht
    cases ht
  | cons v rest ih =>
    intro ts h t ht
    rw [tilesOfPoly] at h
    cases hn : Tile.new ZOOM (latLonToTile ext v.latitude v.longitude).1
        (latLonToTile ext v.latitude v.longitude).2 with
    | none =>
      rw [hn] at h
      cases h
    | some t0 =>
      rw [hn] at h
      cases hrest : tilesOfPoly ext rest with
      | none =>
        rw [hrest] at h
        cases h
      | some ts2 =>
        rw [hrest] at h
        injection h with h2
        rw [← h2] at ht
        rcases List.mem_cons.mp ht with rfl | ht2
        · exact nT_zoom hn
        · exact ih ts2 hrest t ht2

theorem drawLoop_zoomInv (ext : Externals) (poly : List GeoCoordinate)
    (how : BuildingColor) :
    ∀ (l : List Tile) (st : ImageCache), (∀ t ∈ l, t.zoom = ZOOM) →
      zoomInv st → zoomInv (drawLoop ext poly how l st).2 := by
  intro l
  induction l with
  | nil =>
    intro st _ h
    exact h
  | cons u rest ih =>
    intro st hl hst
    have hu : u.zoom = ZOOM := hl u (List.mem_cons_self u rest)
    have hst1 : zoomInv { st with dirty := u :: st.dirty } := by
      obtain ⟨a, b, c⟩ := hst
      refine ⟨a, b, ?_⟩
      intro p hp
      rcases List.mem_cons.mp hp with rfl | hp
      · exact hu
      · exact c p hp
    rw [drawLoop]
    rcases hprep : prepare_tile ext { st with dirty := u :: st.dirty } u with ⟨r, st2⟩
    have hst2 : zoomInv st2 := by
      have hz := prepare_tile_zoomInv ext { st with dirty := u :: st.dirty } u hst1
      rw [hprep] at hz
      exact hz
    cases r with
    | error e =>
      simp only [hprep]
      exact hst2
    | ok u2 =>
      simp only [hprep]
      cases hlook : st2.outlines.lookup u with
      | none =>
        simp only [hlook]
        exact hst2
      | some img =>
        simp only [hlook]
        cases htrim : trimClosing
            (poly.map (geo_to_screen_coordinate ext u (img.width, img.height))) with
        | none =>
          simp only [htrim]
          exact hst2
        | some kept =>
          simp only [htrim]
          cases hcol : COLOR_INDEX.get? how.toIdx with
          | none =>
            simp only [hcol]
            exact hst2
          | some col =>
            simp only [hcol]
            apply ih _ (fun t ht => hl t (List.mem_cons_of_mem u ht))
            obtain ⟨a, b, c⟩ := hst2
            refine ⟨a, ?_, c⟩
            intro p hp
            rcases List.mem_cons.mp hp with rfl | hp
            · exact hu
            · exact b p hp

theorem loadKeys_zoom :
    ∀ (l : List (ℕ × ℕ)) (ts : List Tile), loadKeys l = some ts →
      ∀ t ∈ ts, t.zoom = ZOOM := by
  intro l
  induction l with
  | nil =>
    intro ts h t ht
    injection h with h2
    rw [← h2] at ht
    cases ht
  | cons p rest ih =>
    obtain ⟨y, x⟩ := p
    intro ts h t ht
    rw [loadKeys] at h
    cases hn : Tile.new ZOOM x y with
    | none =>
      rw [hn] at h
      cases h
    | some t0 =>
      rw [hn] at h
      cases hrest : loadKeys rest with
      | none =>
        rw [hrest] at h
        cases h
      | some ts2 =>
        rw [hrest] at h
        injection h with h2
        rw [← h2] at ht
        rcases List.mem_cons.mp ht with rfl | ht2
        · exact nT_zoom hn
        · exact ih ts2 hrest t ht2

theorem loadOutlines_zoom :
    ∀ (l : List ((ℕ × ℕ) × Image)) (os : List (Tile × Image)),
      loadOutlines l = some os → ∀ p ∈ os, p.1.zoom = ZOOM := by
  intro l
  induction l with
  | nil =>
    intro os h p hp
    injection h with h2
    rw [← h2] at hp
    cases hp
  | cons e rest ih =>
    obtain ⟨⟨y, x⟩, img⟩ := e
    intro os h p hp
    rw [loadOutlines] at h
    cases hn : Tile.new ZOOM x y with
    | none =>
      rw [hn] at h
      cases h
    | some t0 =>
      rw [hn] at h
      cases hrest : loadOutlines rest with
      | none =>
        rw [hrest] at h
        cases h
      | some os2 =>
        rw [hrest] at h
        injection h with h2
        rw [← h2] at hp
        rcases List.mem_cons.mp hp with rfl | hp2
        · exact nT_zoom hn
        · exact ih os2 hrest p hp2

/-- C10: every tile address keyed in the cache's maps has zoom ZOOM
(17): prepare_tile and draw_polygon preserve the invariant from any
state, and load establishes it whenever it succeeds. -/
theorem cache_keys_zoom_17 :
    (∀ (ext : Externals) (st : ImageCache) (t : Tile),
      zoomInv st → zoomInv (prepare_tile ext st t).2) ∧
    (∀ (ext : Externals) (st : ImageCache) (poly : List GeoCoordinate)
      (how : BuildingColor), zoomInv st → zoomInv (draw_polygon ext st poly how).2) ∧
    (∀ (tk : List (ℕ × ℕ)) (oks : List ((ℕ × ℕ) × Image)) (st : ImageCache),
      load tk oks = .ok st → zoomInv st) := by
  refine ⟨prepare_tile_zoomInv, ?_, ?_⟩
  · intro ext st poly how hst
    cases hts : tilesOfPoly ext poly with
    | none =>
      simp only [draw_polygon, hts]
      exact hst
    | some ts =>
      simp only [draw_polygon, hts]
      apply drawLoop_zoomInv ext poly how ts.dedup st ?_ hst
      intro t ht
      exact tilesOfPoly_zoom ext poly ts hts t (List.mem_dedup.mp ht)
  · intro tk oks st h
    unfold load at h
    cases hk : loadKeys tk with
    | none =>
      rw [hk] at h
      cases h
    | some ts =>
      rw [hk] at h
      cases ho : loadOutlines oks with
      | none =>
        rw [ho] at h
        cases h
      | some os =>
        rw [ho] at h
        injection h with h2
        rw [← h2]
        exact ⟨loadKeys_zoom tk ts hk, loadOutlines_zoom oks os ho,
          fun t ht => absurd ht (List.not_mem_nil t)⟩

/-- C10 (witness): the invariant is preserved by a fetching call of
prepare_tile on the empty cache. -/
theorem cache_keys_zoom_17_witness :
    zoomInv (prepare_tile ext0 stEmpty tIn).2 :=
  cache_keys_zoom_17.1 ext0 stEmpty tIn
    ⟨fun t ht => absurd ht (List.not_mem_nil t),
     fun p hp => absurd hp (List.not_mem_nil p),
     fun t ht => absurd ht (List.not_mem_nil t)⟩

end GenData

end MapGen
